import Mathlib

/-!
Verification development for the ReactTemplate repository.

Strings manipulated by the validators are modelled as lists of characters
(`List Char`); the JavaScript platform primitives the code calls
(`String.prototype.trim`, the `\s` regex character class) are embedded
explicitly below with the character set ECMAScript assigns them.
-/

namespace ReactTemplate

/-- Whitespace in the ECMAScript sense: the set matched by the regex class
`\s` and stripped by `String.prototype.trim` (WhiteSpace plus
LineTerminator code points). -/
def jsWhitespace (c : Char) : Bool :=
  let n := c.toNat
  n == 0x9 || n == 0xA || n == 0xB || n == 0xC || n == 0xD || n == 0x20 ||
  n == 0xA0 || n == 0x1680 ||
  (decide (0x2000 ≤ n) && decide (n ≤ 0x200A)) ||
  n == 0x2028 || n == 0x2029 || n == 0x202F || n == 0x205F ||
  n == 0x3000 || n == 0xFEFF

/-- Leading-whitespace strip, the left half of `String.prototype.trim`. -/
def jsTrimLeft (s : List Char) : List Char :=
  s.dropWhile jsWhitespace

/-- Trailing-whitespace strip, the right half of `String.prototype.trim`. -/
def jsTrimRight (s : List Char) : List Char :=
  (s.reverse.dropWhile jsWhitespace).reverse

/-- Embedding of `value.trim()`: strip leading and trailing whitespace. -/
def jsTrim (s : List Char) : List Char :=
  jsTrimRight (jsTrimLeft s)

/-- Embedding of `isNonEmpty` from src/lib/validators.ts:
`value.trim().length > 0`. -/
def isNonEmpty (value : List Char) : Bool :=
  decide (0 < (jsTrim value).length)

/-- Character class `[^\s@]` of the email regex in src/lib/validators.ts:
any character that is neither whitespace nor the at sign. -/
def emailChar (c : Char) : Bool :=
  !jsWhitespace c && !(c == '@')

/-- Remainders a `+`-repetition of the class `p` can leave: every suffix of
`s` obtained by consuming a non-empty prefix of characters satisfying `p`.
This is the backtracking search a regex engine performs for `X+`. -/
def plusRem (p : Char → Bool) : List Char → List (List Char)
  | [] => []
  | c :: cs => if p c then cs :: plusRem p cs else []

/-- Matcher for the regex tail `\.[^\s@]+$`. -/
def tailMatch : List Char → Bool
  | [] => false
  | c :: r => c == '.' && (plusRem emailChar r).any List.isEmpty

/-- Matcher for the regex tail `[^\s@]+\.[^\s@]+$`. -/
def midMatch (r : List Char) : Bool :=
  (plusRem emailChar r).any tailMatch

/-- Matcher for the regex tail `@[^\s@]+\.[^\s@]+$`. -/
def atMatch : List Char → Bool
  | [] => false
  | c :: r => c == '@' && midMatch r

/-- Embedding of `isValidEmail` from src/lib/validators.ts: anchored match
of `value` against the regex `/^[^\s@]+@[^\s@]+\.[^\s@]+$/`, implemented
with full backtracking. -/
def isValidEmail (value : List Char) : Bool :=
  (plusRem emailChar value).any atMatch

theorem mem_plusRem (p : Char → Bool) (s : List Char) (r : List Char) :
    r ∈ plusRem p s ↔
      ∃ t, t ≠ [] ∧ (∀ c ∈ t, p c = true) ∧ s = t ++ r := by
  induction s generalizing r with
  | nil =>
    constructor
    · intro h
      simp [plusRem] at h
    · rintro ⟨t, hne, -, heq⟩
      cases t with
      | nil => exact absurd rfl hne
      | cons a as => simp at heq
  | cons c cs ih =>
    constructor
    · intro h
      by_cases hc : p c = true
      · simp only [plusRem, if_pos hc] at h
        rcases List.mem_cons.mp h with h1 | h2
        · refine ⟨[c], by simp, ?_, by simp [h1]⟩
          intro x hx
          rcases List.mem_singleton.mp hx with rfl
          exact hc
        · rcases (ih _).mp h2 with ⟨t, hne, hall, heq⟩
          refine ⟨c :: t, by simp, ?_, by simp [heq]⟩
          intro x hx
          rcases List.mem_cons.mp hx with rfl | hx
          · exact hc
          · exact hall x hx
      · simp only [plusRem, if_neg hc] at h
        simp at h
    · rintro ⟨t, hne, hall, heq⟩
      cases t with
      | nil => exact absurd rfl hne
      | cons a as =>
        have hca : c = a ∧ cs = as ++ r := by
          simpa using heq
        have hpc : p c = true := by
          rw [hca.1]
          exact hall a (List.mem_cons_self a as)
        simp only [plusRem, if_pos hpc]
        cases as with
        | nil =>
          have : cs = r := by simpa using hca.2
          exact this ▸ List.mem_cons_self _ _
        | cons b bs =>
          refine List.mem_cons_of_mem _ ((ih r).mpr ⟨b :: bs, by simp, ?_, hca.2⟩)
          intro x hx
          exact hall x (List.mem_cons_of_mem a hx)

theorem mem_dropWhile_of_neg (p : Char → Bool) (s : List Char) (x : Char)
    (hx : x ∈ s) (hpx : p x = false) : x ∈ s.dropWhile p := by
  induction s with
  | nil => cases hx
  | cons c cs ih =>
    rcases List.mem_cons.mp hx with rfl | hx'
    · simp [List.dropWhile_cons, hpx]
    · by_cases hc : p c = true
      · simpa [List.dropWhile_cons, hc] using ih hx'
      · simp only [List.dropWhile_cons, if_neg hc]
        exact List.mem_cons_of_mem c hx'

theorem mem_jsTrim (s : List Char) (x : Char) (hx : x ∈ s)
    (hpx : jsWhitespace x = false) : x ∈ jsTrim s := by
  have h1 : x ∈ jsTrimLeft s := mem_dropWhile_of_neg _ _ _ hx hpx
  have h2 : x ∈ (jsTrimLeft s).reverse := List.mem_reverse.mpr h1
  have h3 : x ∈ (jsTrimLeft s).reverse.dropWhile jsWhitespace :=
    mem_dropWhile_of_neg _ _ _ h2 hpx
  exact List.mem_reverse.mpr h3

theorem isNonEmpty_of_mem (s : List Char) (x : Char) (hx : x ∈ s)
    (hpx : jsWhitespace x = false) : isNonEmpty s = true := by
  have hmem := mem_jsTrim s x hx hpx
  have : 0 < (jsTrim s).length := List.length_pos.mpr (List.ne_nil_of_mem hmem)
  simpa [isNonEmpty] using this

theorem isValidEmail_decomp (s : List Char) (h : isValidEmail s = true) :
    ∃ a b, s = a ++ '@' :: b ∧ a ≠ [] ∧ (∀ c ∈ a, emailChar c = true) ∧
      midMatch b = true := by
  rcases List.any_eq_true.mp h with ⟨r, hr, hat⟩
  rcases (mem_plusRem _ _ _).mp hr with ⟨t, hne, hall, heq⟩
  cases r with
  | nil => simp [atMatch] at hat
  | cons c r2 =>
    have hc : c = '@' ∧ midMatch r2 = true := by
      have := hat
      simp only [atMatch, Bool.and_eq_true, beq_iff_eq] at this
      exact this
    exact ⟨t, r2, by rw [heq, hc.1], hne, hall, hc.2⟩

theorem midMatch_decomp (b : List Char) (h : midMatch b = true) :
    ∃ m t, b = m ++ '.' :: t ∧ m ≠ [] ∧ t ≠ [] ∧
      (∀ c ∈ m, emailChar c = true) ∧ (∀ c ∈ t, emailChar c = true) := by
  rcases List.any_eq_true.mp h with ⟨r, hr, htail⟩
  rcases (mem_plusRem _ _ _).mp hr with ⟨m, hmne, hmall, heqm⟩
  cases r with
  | nil => simp [tailMatch] at htail
  | cons c r2 =>
    have hc : c = '.' ∧ (plusRem emailChar r2).any List.isEmpty = true := by
      have := htail
      simp only [tailMatch, Bool.and_eq_true, beq_iff_eq] at this
      exact this
    rcases List.any_eq_true.mp hc.2 with ⟨rEnd, hrEnd, hEmpty⟩
    rcases (mem_plusRem _ _ _).mp hrEnd with ⟨t, htne, htall, heqt⟩
    have hrEndNil : rEnd = [] := by
      cases rEnd with
      | nil => rfl
      | cons x xs => simp [List.isEmpty] at hEmpty
    refine ⟨m, t, ?_, hmne, htne, hmall, htall⟩
    rw [heqm, hc.1, heqt, hrEndNil, List.append_nil]

theorem midMatch_of_decomp (m t : List Char) (hm : m ≠ []) (ht : t ≠ [])
    (hmall : ∀ c ∈ m, emailChar c = true) (htall : ∀ c ∈ t, emailChar c = true) :
    midMatch (m ++ '.' :: t) = true := by
  apply List.any_eq_true.mpr
  refine ⟨'.' :: t, (mem_plusRem _ _ _).mpr ⟨m, hm, hmall, rfl⟩, ?_⟩
  simp only [tailMatch, beq_self_eq_true, Bool.true_and]
  apply List.any_eq_true.mpr
  exact ⟨[], (mem_plusRem _ _ _).mpr ⟨t, ht, htall, by simp⟩, rfl⟩

theorem isValidEmail_of_shape (L D T : List Char)
    (hL : L ≠ []) (hD : D ≠ []) (hT : T ≠ [])
    (hLall : ∀ c ∈ L, emailChar c = true)
    (hDall : ∀ c ∈ D, emailChar c = true)
    (hTall : ∀ c ∈ T, emailChar c = true) :
    isValidEmail (L ++ '@' :: (D ++ '.' :: T)) = true := by
  apply List.any_eq_true.mpr
  refine ⟨'@' :: (D ++ '.' :: T), (mem_plusRem _ _ _).mpr ⟨L, hL, hLall, rfl⟩, ?_⟩
  simp only [atMatch, beq_self_eq_true, Bool.true_and]
  exact midMatch_of_decomp D T hD hT hDall hTall

theorem at_mem_of_isValidEmail (s : List Char) (h : isValidEmail s = true) :
    '@' ∈ s := by
  rcases isValidEmail_decomp s h with ⟨a, b, heq, -, -, -⟩
  rw [heq]
  exact List.mem_append_right a (List.mem_cons_self _ _)

theorem first_at_decomp_unique (a b c d : List Char)
    (ha : '@' ∉ a) (hc : '@' ∉ c)
    (h : a ++ '@' :: b = c ++ '@' :: d) : a = c ∧ b = d := by
  induction a generalizing c with
  | nil =>
    cases c with
    | nil => simpa using h
    | cons y cs =>
      exfalso
      have : '@' = y := by simpa using (List.cons.injEq _ _ _ _ ▸ h).1
      exact hc (this ▸ List.mem_cons_self y cs)
  | cons x as ih =>
    cases c with
    | nil =>
      exfalso
      have : x = '@' := by simpa using (List.cons.injEq _ _ _ _ ▸ h).1
      exact ha (this ▸ List.mem_cons_self x as)
    | cons y cs =>
      have hxy : x = y ∧ as ++ '@' :: b = cs ++ '@' :: d := by simpa using h
      have ha' : '@' ∉ as := fun hmem => ha (List.mem_cons_of_mem x hmem)
      have hc' : '@' ∉ cs := fun hmem => hc (List.mem_cons_of_mem y hmem)
      rcases ih cs ha' hc' hxy.2 with ⟨h1, h2⟩
      exact ⟨by rw [hxy.1, h1], h2⟩

theorem emailChar_at_false : emailChar '@' = false := by decide

theorem isValidEmail_no_at (s : List Char) (h : '@' ∉ s) :
    isValidEmail s = false := by
  cases hval : isValidEmail s with
  | false => rfl
  | true => exact absurd (at_mem_of_isValidEmail s hval) h

theorem isValidEmail_no_dot_after_at (a b : List Char)
    (ha : '@' ∉ a) (hb : '.' ∉ b) :
    isValidEmail (a ++ '@' :: b) = false := by
  cases hval : isValidEmail (a ++ '@' :: b) with
  | false => rfl
  | true =>
    exfalso
    rcases isValidEmail_decomp _ hval with ⟨a', b', heq, -, hall, hmid⟩
    have ha' : '@' ∉ a' := by
      intro hmem
      have := hall '@' hmem
      rw [emailChar_at_false] at this
      exact Bool.false_ne_true this
    rcases first_at_decomp_unique a b a' b' ha ha' heq with ⟨-, hbb⟩
    rcases midMatch_decomp b' hmid with ⟨m, t, heqb, -, -, -, -⟩
    apply hb
    rw [hbb, heqb]
    exact List.mem_append_right m (List.mem_cons_self _ _)

/-!
Embedding of the API client from src/lib/api.ts. The browser `fetch`
transport is a parameter: a function from the request URL and the built
init object to a `Response`. A `Response` carries the views the code
reads from the platform object: `ok`, `status`, the raw body text that
`response.text()` yields, and the JSON value that `response.json()`
yields for that body.
-/

/-- JSON values, the codomain of the platform method `response.json()`. -/
inductive Json where
  | null : Json
  | bool (b : Bool) : Json
  | num (n : Int) : Json
  | str (s : String) : Json
  | arr (elems : List Json) : Json
  | obj (fields : List (String × Json)) : Json

/-- View of a platform fetch response: the status flag and code, the raw
body text, and the body parsed as JSON. -/
structure Response where
  ok : Bool
  status : Nat
  bodyText : String
  bodyJson : Json

/-- Embedding of the `ApiError` class of src/lib/api.ts: an error value
whose `name` is set to the string ApiError and which carries the numeric
status and the message handed to the constructor. -/
structure ApiError where
  name : String
  status : Nat
  message : String

/-- Construction performed by `new ApiError(status, message)`. -/
def mkApiError (status : Nat) (message : String) : ApiError :=
  { name := "ApiError", status := status, message := message }

/-- Caller-supplied options bag, the recognized subset of `RequestInit`:
an absent field is `none`, matching a property that is not an own
property of the object. Headers objects are string-keyed maps, modelled
as association lists. -/
structure RequestOptions where
  method : Option String := none
  headers : Option (List (String × String)) := none
  body : Option String := none

/-- Object handed to `fetch` after the init literal of src/lib/api.ts is
evaluated. -/
structure FetchInit where
  headers : List (String × String)
  method : Option String
  body : Option String

/-- Writing one key of a string-keyed object: an existing key keeps its
position and takes the new value, a new key is appended. -/
def setKey : List (String × String) → String × String → List (String × String)
  | [], kv => [kv]
  | (k, v) :: rest, kv => if k == kv.1 then (k, kv.2) :: rest else (k, v) :: setKey rest kv

/-- Object-spread of `extra` over `base`, the semantics of the literal
`\x7b ...base, ...extra \x7d`: every key of `extra` overwrites. -/
def spreadObj (base extra : List (String × String)) : List (String × String) :=
  extra.foldl setKey base

/-- Evaluation of the init literal of src/lib/api.ts, with JavaScript
object-spread semantics. The literal first writes a `headers` property
holding the default Content-Type map spread with the caller headers, and
then spreads `...options`: when `options` carries its own `headers`
property, that later spread overwrites the merged map with the caller
headers verbatim. -/
def buildInit (options : Option RequestOptions) : FetchInit :=
  let optHeaders : Option (List (String × String)) := options.bind fun o => o.headers
  let merged := spreadObj [("Content-Type", "application/json")] (optHeaders.getD [])
  { headers := match optHeaders with
      | some h => h
      | none => merged
    method := options.bind fun o => o.method
    body := options.bind fun o => o.body }

/-- Modelled from the spec: src/lib/constants.ts is not among the
provided sources; the spec fixes only that the base URL is one
externally supplied string read at startup. Its concrete value does not
affect any claim. -/
def API_BASE_URL : String := "https://api.example.com"

/-- Embedding of `apiClient` from src/lib/api.ts: issue the request over
the given transport; on a non-ok response fail with an `ApiError` built
from the status code and the raw body text, otherwise succeed with the
body parsed as JSON. -/
def apiClient (transport : String → FetchInit → Response)
    (endpoint : String) (options : Option RequestOptions) : Except ApiError Json :=
  let response := transport (API_BASE_URL ++ endpoint) (buildInit options)
  if !response.ok then
    Except.error (mkApiError response.status response.bodyText)
  else
    Except.ok response.bodyJson

/-!
Embedding of the auth context from src/contexts/AuthContext.tsx. The
provider owns one mutable cell `user : Option User` initialised to
`none`; `login` and `logout` are the state transformers the two
`setUser` calls perform on that cell. `useAuth` reads the context lookup
result, which is `none` for a consumer not nested under a provider.
-/

/-- User record of src/contexts/AuthContext.tsx. -/
structure User where
  id : String
  email : String
  name : String

/-- Value published by the provider, as far as state is concerned: the
current user cell. The `login`/`logout` members close over the state
setter and are embedded as the transformers below. -/
structure AuthContextValue where
  user : Option User

/-- Embedding of `useAuth`: a null context lookup raises, a non-null one
is returned unchanged. The raise is modelled as `Except.error` carrying
the message of the thrown `Error`. -/
def useAuth (context : Option AuthContextValue) : Except String AuthContextValue :=
  match context with
  | none => Except.error "useAuth must be used within an AuthProvider"
  | some c => Except.ok c

/-- Transformer performed by `login`, that is `setUser(user)`. -/
def login (u : User) (_current : Option User) : Option User :=
  some u

/-- Transformer performed by `logout`, that is `setUser(null)`. -/
def logout (_current : Option User) : Option User :=
  none

/-- Claim C1: whenever the transport's response to the issued request has
`ok = false`, `apiClient` fails with an `ApiError` whose status field is
the response's numeric status code and whose message is the raw response
body text. -/
theorem C1_api_error_on_failure (t : String → FetchInit → Response)
    (e : String) (o : Option RequestOptions)
    (h : (t (API_BASE_URL ++ e) (buildInit o)).ok = false) :
    apiClient t e o =
      Except.error (mkApiError (t (API_BASE_URL ++ e) (buildInit o)).status
        (t (API_BASE_URL ++ e) (buildInit o)).bodyText) := by
  simp [apiClient, h]

/-- Mocked transport response: HTTP 404 with body text "not found". -/
def mock404 : Response :=
  { ok := false, status := 404, bodyText := "not found", bodyJson := Json.null }

/-- Witness for claim C1: a mocked 404 response with body "not found"
makes apiClient of the endpoint "/x" fail with status 404 and message
"not found". -/
theorem C1_witness :
    apiClient (fun _ _ => mock404) "/x" none =
      Except.error (mkApiError 404 "not found") :=
  C1_api_error_on_failure (fun _ _ => mock404) "/x" none rfl

/-- Claim C2: the init literal of src/lib/api.ts spreads `...options`
after writing the merged headers, so an options bag carrying its own
headers field replaces the merged map: the request goes out with the
caller headers verbatim and no Content-Type entry. Only a call without
caller headers sends the default map. This refutes the claim that the
final headers are the caller headers merged over the default and that
every request sends Content-Type: application/json. -/
theorem C2_content_type_dropped :
    (buildInit (some { headers := some [("X-Custom", "1")] })).headers =
      [("X-Custom", "1")] ∧
    ("Content-Type", "application/json") ∉
      (buildInit (some { headers := some [("X-Custom", "1")] })).headers ∧
    (buildInit none).headers = [("Content-Type", "application/json")] := by
  decide

/-- Claim C3: whenever the transport's response to the issued request has
`ok = true`, `apiClient` succeeds with the response body parsed as JSON. -/
theorem C3_json_on_success (t : String → FetchInit → Response)
    (e : String) (o : Option RequestOptions)
    (h : (t (API_BASE_URL ++ e) (buildInit o)).ok = true) :
    apiClient t e o = Except.ok (t (API_BASE_URL ++ e) (buildInit o)).bodyJson := by
  simp [apiClient, h]

/-- Mocked transport response: HTTP 200 whose body text is the JSON
document with the single field id holding "1". -/
def mock200 : Response :=
  { ok := true, status := 200, bodyText := "\x7b\"id\":\"1\"\x7d",
    bodyJson := Json.obj [("id", Json.str "1")] }

/-- Witness for claim C3: a mocked 200 response with JSON body id = "1"
makes apiClient of the endpoint "/x" succeed with that object. -/
theorem C3_witness :
    apiClient (fun _ _ => mock200) "/x" none =
      Except.ok (Json.obj [("id", Json.str "1")]) :=
  C3_json_on_success (fun _ _ => mock200) "/x" none rfl

/-- Claim C4: a null context lookup makes `useAuth` raise an error before
returning any value, and a lookup inside a provider scope returns the
context value unchanged without raising. -/
theorem C4_useAuth_guard :
    useAuth none = Except.error "useAuth must be used within an AuthProvider" ∧
    ∀ c : AuthContextValue, useAuth (some c) = Except.ok c :=
  ⟨rfl, fun _ => rfl⟩

/-- Claim C5: logout maps every state to Anonymous, and in particular
login of the user with id "1", email "a@b.com" and name "A" followed by
logout leaves the user cell equal to null. -/
theorem C5_logout_to_anonymous :
    (∀ s : Option User, logout s = none) ∧
    logout (login { id := "1", email := "a@b.com", name := "A" } none) = none :=
  ⟨fun _ => rfl, rfl⟩

/-- Claim C6: login of a user record always overwrites the current user
cell with that record, from any prior state, and doing it twice in
succession yields the same state as doing it once. -/
theorem C6_login_overwrites_idempotent (u : User) (s : Option User) :
    login u s = some u ∧ login u (login u s) = login u s :=
  ⟨rfl, rfl⟩

/-- Claim C7: isNonEmpty returns true exactly when the string, stripped
of leading and trailing whitespace, has positive length. -/
theorem C7_isNonEmpty_iff_trim_pos (s : List Char) :
    isNonEmpty s = true ↔ 0 < (jsTrim s).length := by
  simp [isNonEmpty]

/-- Counterexample to claim C8 as stated: the empty string contains no
whitespace characters, yet isNonEmpty returns false on it, against the
claim's first half. -/
theorem C8_counterexample :
    ([] : List Char).all (fun c => !jsWhitespace c) = true ∧
    isNonEmpty ([] : List Char) = false := by
  decide

/-- Claim C8 as amended: every non-empty string containing no whitespace
characters is accepted by isNonEmpty, and every string that is empty or
consists only of whitespace characters is rejected. -/
theorem C8_nonempty_iff_whitespace :
    (∀ s : List Char, s ≠ [] → (∀ c ∈ s, jsWhitespace c = false) →
        isNonEmpty s = true) ∧
    (∀ s : List Char, (∀ c ∈ s, jsWhitespace c = true) → isNonEmpty s = false) := by
  constructor
  · intro s hne hall
    cases s with
    | nil => exact absurd rfl hne
    | cons c cs =>
      exact isNonEmpty_of_mem _ c (List.mem_cons_self c cs)
        (hall c (List.mem_cons_self c cs))
  · intro s hall
    have h1 : jsTrimLeft s = [] := by
      rw [jsTrimLeft, List.dropWhile_eq_nil_iff]
      exact hall
    have h2 : jsTrim s = [] := by
      simp [jsTrim, jsTrimRight, h1]
    simp [isNonEmpty, h2]

/-- Witness for claim C8: the one-letter string is accepted, the
one-space string is rejected. -/
theorem C8_witness :
    isNonEmpty ['a'] = true ∧ isNonEmpty [' '] = false :=
  ⟨C8_nonempty_iff_whitespace.1 ['a'] (by decide) (by decide),
   C8_nonempty_iff_whitespace.2 [' '] (by decide)⟩

/-- Counterexample to claim C9 as stated: with local part a at b, domain
part c and tld part d, all non-empty and free of whitespace, the
assembled string is of the claimed shape yet isValidEmail rejects it,
because the local part contains an at sign. -/
theorem C9_counterexample :
    (['a', '@', 'b'] : List Char) ≠ [] ∧
    (['c'] : List Char) ≠ [] ∧
    (['d'] : List Char) ≠ [] ∧
    (['a', '@', 'b'] ++ '@' :: (['c'] ++ '.' :: ['d'])).all
      (fun c => !jsWhitespace c) = true ∧
    isValidEmail (['a', '@', 'b'] ++ '@' :: (['c'] ++ '.' :: ['d'])) = false := by
  decide

/-- Claim C9 as amended: every string of the shape local at domain dot
tld whose three parts are non-empty and contain neither whitespace nor
an at sign is accepted by isValidEmail; every string without an at sign
is rejected, and so is every string with no dot after its first at
sign. -/
theorem C9_email_shape :
    (∀ L D T : List Char, L ≠ [] → D ≠ [] → T ≠ [] →
        (∀ c ∈ L, emailChar c = true) → (∀ c ∈ D, emailChar c = true) →
        (∀ c ∈ T, emailChar c = true) →
        isValidEmail (L ++ '@' :: (D ++ '.' :: T)) = true) ∧
    (∀ s : List Char, '@' ∉ s → isValidEmail s = false) ∧
    (∀ a b : List Char, '@' ∉ a → '.' ∉ b →
        isValidEmail (a ++ '@' :: b) = false) :=
  ⟨isValidEmail_of_shape, isValidEmail_no_at, isValidEmail_no_dot_after_at⟩

/-- Witness for claim C9: the address a at b dot c is accepted, the
string ab without an at sign is rejected, and the string a at bc with no
dot after the at sign is rejected. -/
theorem C9_witness :
    isValidEmail ['a', '@', 'b', '.', 'c'] = true ∧
    isValidEmail ['a', 'b'] = false ∧
    isValidEmail ['a', '@', 'b', 'c'] = false :=
  ⟨C9_email_shape.1 ['a'] ['b'] ['c'] (by decide) (by decide) (by decide)
      (by decide) (by decide) (by decide),
   C9_email_shape.2.1 ['a', 'b'] (by decide),
   C9_email_shape.2.2 ['a'] ['b', 'c'] (by decide) (by decide)⟩

/-- Claim C10: every string accepted by isValidEmail is accepted by
isNonEmpty, since it contains an at sign, which survives trimming. -/
theorem C10_valid_email_nonempty (s : List Char) (h : isValidEmail s = true) :
    isNonEmpty s = true :=
  isNonEmpty_of_mem s '@' (at_mem_of_isValidEmail s h) (by decide)

/-- Witness for claim C10: the address a at b dot c is a valid email and
is non-empty after trimming. -/
theorem C10_witness :
    isValidEmail ['a', '@', 'b', '.', 'c'] = true ∧
    isNonEmpty ['a', '@', 'b', '.', 'c'] = true :=
  ⟨by decide, C10_valid_email_nonempty ['a', '@', 'b', '.', 'c'] (by decide)⟩

end ReactTemplate
